import Mathlib

/-!
Verification of the sout-ex-gain-wv plugin core (src/main/src/lib.rs):
a gain stage with a tempo-synchronized decay envelope and a webview
control bridge.  Real-number arithmetic models the f32/f64 arithmetic of
the source; fallible transport queries are modelled with Except.
-/

namespace SoutGain

/-- Truncation toward zero, the rounding used by Rust float remainder. -/
noncomputable def rtrunc (x : ℝ) : ℤ := if 0 ≤ x then ⌊x⌋ else ⌈x⌉

/-- Rust `%` on floats: remainder with truncated division. -/
noncomputable def fmod (x y : ℝ) : ℝ := x - y * (rtrunc (x / y) : ℝ)

/-- nih-plug `util::db_to_gain`: `10.0f32.powf(dbs * 0.05)`. -/
noncomputable def db_to_gain (dbs : ℝ) : ℝ := (10 : ℝ) ^ (dbs * 0.05)

/-- `let beat = self.tempo / 60.0 * second % length as f64;` -/
noncomputable def envBeat (tempo second : ℝ) (length : ℤ) : ℝ :=
  fmod (tempo / 60 * second) (length : ℝ)

/-- `let final_db = -((beat as f32 + 1.0).powf(-pow)) * 50.0 * amount;` -/
noncomputable def envDb (beat pw amount : ℝ) : ℝ :=
  -((beat + 1) ^ (-pw)) * 50 * amount

/-- Host transport as seen through `context.transport()`: tempo and
position may each be unavailable. -/
structure Transport where
  tempo : Option ℝ
  posSeconds : Option ℝ

/-- Body of the inner per-channel-sample loop: when `length > 0` the
position is fetched (`expect` = error on `None`), the envelope gain is
applied, and in all cases the smoothed gain is applied. -/
noncomputable def sampleStep (tempo : ℝ) (pos : Option ℝ) (length : ℤ)
    (pw amount gain s : ℝ) : Except String ℝ :=
  if 0 < length then
    match pos with
    | none => Except.error "err: cannot get seconds"
    | some second =>
        Except.ok (s * db_to_gain (envDb (envBeat tempo second length) pw amount) * gain)
  else
    Except.ok (s * gain)

/-- One sample frame (`for sample in channel_samples`): every channel of
the frame is processed with the same smoothed parameter values. -/
noncomputable def processFrame (tempo : ℝ) (pos : Option ℝ) (length : ℤ)
    (pw amount gain : ℝ) : List ℝ → Except String (List ℝ)
  | [] => Except.ok []
  | s :: rest =>
    match sampleStep tempo pos length pw amount gain s with
    | Except.error e => Except.error e
    | Except.ok y =>
      match processFrame tempo pos length pw amount gain rest with
      | Except.error e => Except.error e
      | Except.ok ys => Except.ok (y :: ys)

/-- The outer loop `for channel_samples in buffer.iter_samples()`: the
`i`-th iteration pulls each smoother once (`smoothed.next()`), modelled
by reading each smoother stream at index `i`. -/
noncomputable def processFrom (tempo : ℝ) (pos : Option ℝ) (gainS : ℕ → ℝ)
    (lengthS : ℕ → ℤ) (amountS pwS : ℕ → ℝ) :
    ℕ → List (List ℝ) → Except String (List (List ℝ))
  | _, [] => Except.ok []
  | i, frame :: rest =>
    match processFrame tempo pos (lengthS i) (pwS i) (amountS i) (gainS i) frame with
    | Except.error e => Except.error e
    | Except.ok ys =>
      match processFrom tempo pos gainS lengthS amountS pwS (i + 1) rest with
      | Except.error e => Except.error e
      | Except.ok rest2 => Except.ok (ys :: rest2)

/-- `SoutGainRs::process`: the tempo is fetched unconditionally first
(`expect` = error on `None`), then the buffer is traversed per sample
frame. -/
noncomputable def process (tr : Transport) (gainS : ℕ → ℝ) (lengthS : ℕ → ℤ)
    (amountS pwS : ℕ → ℝ) (buffer : List (List ℝ)) :
    Except String (List (List ℝ)) :=
  match tr.tempo with
  | none => Except.error "err: cannot get tempo"
  | some tempo => processFrom tempo tr.posSeconds gainS lengthS amountS pwS 0 buffer

/-- Modelled from the claim, as a refinement comparator: the same
processing but with `length`/`amount`/`pow` pulled exactly once per
audio block (their block-start values used for every frame) while gain
is still per-frame. -/
noncomputable def processOncePerBlock (tr : Transport) (gainS : ℕ → ℝ)
    (lengthS : ℕ → ℤ) (amountS pwS : ℕ → ℝ) (buffer : List (List ℝ)) :
    Except String (List (List ℝ)) :=
  match tr.tempo with
  | none => Except.error "err: cannot get tempo"
  | some tempo =>
      processFrom tempo tr.posSeconds gainS (fun _ => lengthS 0)
        (fun _ => amountS 0) (fun _ => pwS 0) 0 buffer

/-! ### Control bridge: UI actions, JSON decode, event-loop cycle -/

/-- An f32 value as it may appear at a parameter-handling site: NaN,
infinities, or a finite value (finite f32 values are rationals). -/
inductive F32
  | nan
  | posInf
  | negInf
  | fin (q : ℚ)
deriving DecidableEq

/-- Truncation toward zero on rationals, the rounding of Rust `as`. -/
def ratTrunc (q : ℚ) : ℤ := if 0 ≤ q then ⌊q⌋ else ⌈q⌉

def i32Min : ℤ := -(2 ^ 31)

def i32Max : ℤ := 2 ^ 31 - 1

/-- Rust saturating float-to-int cast semantics of `value as i32`:
NaN maps to 0, out-of-range values saturate, finite values truncate
toward zero. -/
def f32ToI32 : F32 → ℤ
  | .nan => 0
  | .posInf => i32Max
  | .negInf => i32Min
  | .fin q => max i32Min (min i32Max (ratTrunc q))

/-- Modelled from the spec: nih-plug parameter ranges are not in src/;
per section 7, out-of-range parameter input is "recovered silently by
clamping before conversion".  Clamp for `IntRange::Linear`. -/
def intRangeClamp (lo hi v : ℤ) : ℤ := max lo (min hi v)

/-- Clamp of a normalized value to [0,1]. -/
def clamp01 (q : ℚ) : ℚ := max 0 (min 1 q)

/-- The `Action` enum decoded from the web UI (serde, internally tagged
by the "type" field). -/
inductive Action
  | init
  | setSize (width height : ℕ)
  | setGain (value : ℚ)
  | setLength (value : F32)
  | setPow (value : ℚ)
  | setAmount (value : ℚ)
deriving DecidableEq

/-- JSON values, with numbers as rationals (serde_json numbers are
finite). -/
inductive JValue
  | null
  | bool (b : Bool)
  | num (q : ℚ)
  | str (s : String)
  | arr (items : List JValue)
  | obj (fields : List (String × JValue))

/-- First field with the given key. -/
def jLookup (key : String) : List (String × JValue) → Option JValue
  | [] => none
  | (k, v) :: rest => if k = key then some v else jLookup key rest

/-- serde f32 deserialization: any JSON number. -/
def jF32 : JValue → Option ℚ
  | .num q => some q
  | _ => none

/-- serde u32 deserialization: a JSON number that is an integer in
[0, 2^32). -/
def jU32 : JValue → Option ℕ
  | .num q => if 0 ≤ q.num ∧ q.den = 1 ∧ q.num < 2 ^ 32 then some q.num.toNat else none
  | _ => none

/-- `serde_json::from_value::<Action>`: the "type" field selects the
variant; unknown tags and missing or ill-typed fields fail. -/
def decodeAction (j : JValue) : Option Action :=
  match j with
  | .obj fields =>
    match jLookup "type" fields with
    | some (.str tag) =>
      if tag = "Init" then some .init
      else if tag = "SetSize" then
        match (jLookup "width" fields).bind jU32, (jLookup "height" fields).bind jU32 with
        | some w, some h => some (.setSize w h)
        | _, _ => none
      else if tag = "SetGain" then
        match (jLookup "value" fields).bind jF32 with
        | some v => some (.setGain v)
        | none => none
      else if tag = "SetLength" then
        match (jLookup "value" fields).bind jF32 with
        | some v => some (.setLength (.fin v))
        | none => none
      else if tag = "SetPow" then
        match (jLookup "value" fields).bind jF32 with
        | some v => some (.setPow v)
        | none => none
      else if tag = "SetAmount" then
        match (jLookup "value" fields).bind jF32 with
        | some v => some (.setAmount v)
        | none => none
      else none
    | _ => none
  | _ => none

/-- Parameter state touched by the bridge: normalized values for the
float parameters, the raw bar count for `length`, and the gain
change flag (`gain_value_changed`). -/
structure ParamState where
  gainNorm : ℚ
  gainChanged : Bool
  lengthRaw : ℤ
  powNorm : ℚ
  amountNorm : ℚ
deriving DecidableEq

/-- State visible to the event loop: UI dimensions and parameters. -/
structure BridgeState where
  width : ℕ
  height : ℕ
  params : ParamState
deriving DecidableEq

/-- Outbound notifications sent over `ctx.send_json`. -/
inductive Notif
  | setSize (width height : ℕ)
  | paramChange (param : String) (value : ℚ)
deriving DecidableEq

/-- One arm of the `match action` in the event loop.  Setting `gain`
runs the parameter callback, which stores `true` into the change flag;
`SetLength` casts the f32 to i32 and the range clamps it; normalized
sets clamp to [0,1]. -/
def handleAction (s : BridgeState) : Action → BridgeState × List Notif
  | .init => (s, [.setSize s.width s.height])
  | .setSize w h => ({ s with width := w, height := h }, [])
  | .setGain v =>
      ({ s with params := { s.params with gainNorm := clamp01 v, gainChanged := true } }, [])
  | .setLength v =>
      ({ s with params := { s.params with lengthRaw := intRangeClamp 0 4 (f32ToI32 v) } }, [])
  | .setPow v => ({ s with params := { s.params with powNorm := clamp01 v } }, [])
  | .setAmount v => ({ s with params := { s.params with amountNorm := clamp01 v } }, [])

/-- Drain the queue of decoded actions of one wake cycle, accumulating
notifications in emission order. -/
def drainActions (s : BridgeState) : List Action → BridgeState × List Notif
  | [] => (s, [])
  | a :: rest =>
    let p1 := handleAction s a
    let p2 := drainActions p1.1 rest
    (p2.1, p1.2 ++ p2.2)

/-- The post-drain check: `gain_value_changed.swap(false)`; on `true`
a `param_change` notification is sent (`sendOk` models whether
`ctx.send_json` succeeds; its result is discarded either way). -/
def flagCheck (s : BridgeState) (sendOk : Bool) : BridgeState × List Notif :=
  if s.params.gainChanged then
    ({ s with params := { s.params with gainChanged := false } },
     if sendOk then [.paramChange "gain" s.params.gainNorm] else [])
  else (s, [])

/-- One wake cycle over decoded actions: drain, then the flag check. -/
def cycleActions (s : BridgeState) (sendOk : Bool) (as : List Action) :
    BridgeState × List Notif :=
  let p1 := drainActions s as
  let p2 := flagCheck p1.1 sendOk
  (p2.1, p1.2 ++ p2.2)

/-- One wake cycle over raw JSON messages
(`while let Ok(value) = ctx.next_event()`): each message is decoded;
a decode failure panics (`Except.error`), ending the loop. -/
def cycleMsgs (s : BridgeState) (sendOk : Bool) :
    List JValue → Except String (BridgeState × List Notif)
  | [] => Except.ok (flagCheck s sendOk)
  | m :: rest =>
    match decodeAction m with
    | none => Except.error "Invalid action received from web UI."
    | some a =>
      let p1 := handleAction s a
      match cycleMsgs p1.1 sendOk rest with
      | Except.error e => Except.error e
      | Except.ok p2 => Except.ok (p2.1, p1.2 ++ p2.2)

/-- Whether a notification is a `set_size` message. -/
def isSetSizeN : Notif → Bool
  | .setSize _ _ => true
  | .paramChange _ _ => false

/-! ### Gain change-flag handshake as an interleaving trace -/

/-- Events on the `gain_value_changed` atomic: a value change (host
automation or UI, the callback stores `true`), or one editor poll
(`swap(false)` then send, `ok` = send success). -/
inductive FlagEv
  | change
  | poll (ok : Bool)
deriving DecidableEq

/-- State: the flag and the number of notifications delivered. -/
def flagStep : Bool × ℕ → FlagEv → Bool × ℕ
  | (_, n), .change => (true, n)
  | (f, n), .poll ok => if f then (false, if ok then n + 1 else n) else (f, n)

def flagRunFrom (st : Bool × ℕ) (evs : List FlagEv) : Bool × ℕ :=
  evs.foldl flagStep st

def flagRun (evs : List FlagEv) : Bool × ℕ := flagRunFrom (false, 0) evs

/-! ### Parameter ranges (modelled from the spec) -/

/-- Modelled from the spec: nih-plug `FloatRange` (not in src/). -/
inductive FloatRange
  | linear (lo hi : ℝ)
  | skewed (lo hi factor : ℝ)

/-- Modelled from the spec: conversion from a normalized value; for
`Skewed` with positive minimum it is `min * (max/min)^(v^factor)`, for
`Linear` it is `min + v*(max-min)`. -/
noncomputable def unnormalize : FloatRange → ℝ → ℝ
  | .linear lo hi, v => lo + v * (hi - lo)
  | .skewed lo hi factor, v => lo * (hi / lo) ^ (v ^ factor)

/-- Modelled from the spec: `set_normalized` clamps to [0,1] before
converting through the range. -/
noncomputable def set_normalized (r : FloatRange) (v : ℝ) : ℝ :=
  unnormalize r (max 0 (min 1 v))

/-- The `gain` parameter's range: `FloatRange::Skewed` from
`db_to_gain(-30)` to `db_to_gain(30)` with the gain skew factor
(quantified, its exact value is irrelevant here). -/
noncomputable def gainRange (factor : ℝ) : FloatRange :=
  .skewed (db_to_gain (-30)) (db_to_gain 30) factor

/-! ### Helper lemmas -/

/-- A frame processed with non-positive `length` skips the envelope
branch: every channel sample is only multiplied by the smoothed gain. -/
lemma processFrame_nonpos (tempo : ℝ) (pos : Option ℝ) (length : ℤ)
    (hl : ¬ 0 < length) (pw amount gain : ℝ) (frame : List ℝ) :
    processFrame tempo pos length pw amount gain frame =
      Except.ok (frame.map fun s => s * gain) := by
  induction frame with
  | nil => simp [processFrame]
  | cons s rest ih => simp [processFrame, sampleStep, hl, ih]

/-- With the position unavailable, a nonempty frame with positive
`length` fails on the first sample. -/
lemma processFrame_noPos_err (tempo : ℝ) (length : ℤ) (hl : 0 < length)
    (pw amount gain : ℝ) (frame : List ℝ) (hf : frame ≠ []) :
    processFrame tempo none length pw amount gain frame =
      Except.error "err: cannot get seconds" := by
  cases frame with
  | nil => exact absurd rfl hf
  | cons s rest => simp [processFrame, sampleStep, hl]

/-- With the position available and positive `length`, a frame maps
each sample through the envelope and the smoothed gain. -/
lemma processFrame_withPos (tempo second : ℝ) (length : ℤ) (hl : 0 < length)
    (pw amount gain : ℝ) (frame : List ℝ) :
    processFrame tempo (some second) length pw amount gain frame =
      Except.ok (frame.map fun s =>
        s * db_to_gain (envDb (envBeat tempo second length) pw amount) * gain) := by
  induction frame with
  | nil => simp [processFrame]
  | cons s rest ih => simp [processFrame, sampleStep, hl, ih]

/-! ### C2 -/

/-- C2: whenever `length == 0` the envelope branch is bypassed for
every sample — for any tempo, position availability, pow and amount the
sample is only multiplied by the smoothed gain (envelope multiplier 1). -/
theorem length_zero_bypasses_envelope (tempo : ℝ) (pos : Option ℝ)
    (pw amount gain : ℝ) (frame : List ℝ) :
    processFrame tempo pos 0 pw amount gain frame =
      Except.ok (frame.map fun s => s * gain) :=
  processFrame_nonpos tempo pos 0 (by decide) pw amount gain frame

/-! ### C10 -/

/-- C10: handling `SetLength` leaves the length parameter's raw value
an integer in [0,4] for every f32 payload (the `as i32` cast saturates
and the range clamps), and a NaN payload yields 0. -/
theorem setLength_saturates_and_clamps (s : BridgeState) (v : F32) :
    0 ≤ (handleAction s (Action.setLength v)).1.params.lengthRaw ∧
    (handleAction s (Action.setLength v)).1.params.lengthRaw ≤ 4 ∧
    (handleAction s (Action.setLength F32.nan)).1.params.lengthRaw = 0 := by
  refine ⟨?_, ?_, ?_⟩
  · simp [handleAction, intRangeClamp]
  · simp only [handleAction, intRangeClamp]
    exact max_le (by norm_num) (min_le_left _ _)
  · simp [handleAction, intRangeClamp, f32ToI32]

/-! ### C6 -/

/-- C6: a malformed or unrecognized inbound UI message is fatal: any
wake cycle whose queue contains a message that fails to decode
terminates the processing loop with a panic, never silently ignoring
it; an unrecognized discriminant is such a failure. -/
theorem malformed_action_is_fatal :
    (∀ (s : BridgeState) (sendOk : Bool) (pre : List JValue) (m : JValue)
        (rest : List JValue),
      decodeAction m = none →
      cycleMsgs s sendOk (pre ++ m :: rest) =
        Except.error "Invalid action received from web UI.") ∧
    decodeAction (JValue.obj [("type", JValue.str "Bogus")]) = none := by
  constructor
  · intro s sendOk pre
    induction pre generalizing s with
    | nil =>
      intro m rest hm
      simp [cycleMsgs, hm]
    | cons x xs ih =>
      intro m rest hm
      cases hx : decodeAction x with
      | none => simp [cycleMsgs, hx]
      | some a => simp [cycleMsgs, hx, ih _ _ _ hm]
  · decide

/-- Concrete run of the fatal decode path. -/
theorem malformed_action_is_fatal_witness :
    cycleMsgs ⟨200, 200, ⟨1, false, 0, 1/2, 1/2⟩⟩ true
        ([] ++ JValue.obj [("type", JValue.str "Bogus")] :: []) =
      Except.error "Invalid action received from web UI." :=
  malformed_action_is_fatal.1 ⟨200, 200, ⟨1, false, 0, 1/2, 1/2⟩⟩ true []
    (JValue.obj [("type", JValue.str "Bogus")]) [] (by decide)

/-! ### Flag-handshake helper lemmas -/

lemma flagRunFrom_append (st : Bool × ℕ) (xs ys : List FlagEv) :
    flagRunFrom st (xs ++ ys) = flagRunFrom (flagRunFrom st xs) ys := by
  simp [flagRunFrom, List.foldl_append]

lemma flagRun_eq_from (evs : List FlagEv) :
    flagRun evs = flagRunFrom (false, 0) evs := rfl

/-- A set flag is preserved by further changes. -/
lemma flagRunFrom_true_changes (b : List FlagEv) (n : ℕ)
    (hb : ∀ e ∈ b, e = FlagEv.change) :
    flagRunFrom (true, n) b = (true, n) := by
  induction b with
  | nil => rfl
  | cons e rest ih =>
    have he : e = FlagEv.change := hb e (by simp)
    subst he
    have : ∀ e ∈ rest, e = FlagEv.change := fun e h => hb e (by simp [h])
    simpa [flagRunFrom, flagStep] using ih this

/-- A cleared flag stays cleared, and nothing is sent, while no change
arrives. -/
lemma flagRunFrom_false_noChange (c : List FlagEv) (n : ℕ)
    (hc : ∀ e ∈ c, e ≠ FlagEv.change) :
    flagRunFrom (false, n) c = (false, n) := by
  induction c with
  | nil => rfl
  | cons e rest ih =>
    have hrest : ∀ e ∈ rest, e ≠ FlagEv.change := fun e h => hc e (by simp [h])
    cases e with
    | change => exact absurd rfl (hc FlagEv.change (by simp))
    | poll ok => simpa [flagRunFrom, flagStep] using ih hrest

/-- The number of notifications never exceeds the number of changes. -/
lemma flagRunFrom_sent_le (evs : List FlagEv) :
    ∀ (f : Bool) (n : ℕ),
      (flagRunFrom (f, n) evs).2 ≤ n + f.toNat + evs.count FlagEv.change := by
  induction evs with
  | nil => intro f n; simp [flagRunFrom]
  | cons e rest ih =>
    intro f n
    cases e with
    | change =>
      have h := ih true n
      have hstep : flagRunFrom (f, n) (FlagEv.change :: rest) =
          flagRunFrom (true, n) rest := rfl
      rw [hstep, List.count_cons_self]
      cases f <;> simp only [Bool.toNat_true, Bool.toNat_false] at h ⊢ <;> omega
    | poll ok =>
      have hcnt : (FlagEv.poll ok :: rest).count FlagEv.change =
          rest.count FlagEv.change := by
        rw [List.count_cons]
        simp
      rw [hcnt]
      cases f with
      | false =>
        have h := ih false n
        have hstep : flagRunFrom (false, n) (FlagEv.poll ok :: rest) =
            flagRunFrom (false, n) rest := by
          simp [flagRunFrom, flagStep]
        rw [hstep]
        simpa using h
      | true =>
        cases ok with
        | false =>
          have h := ih false n
          have hstep : flagRunFrom (true, n) (FlagEv.poll false :: rest) =
              flagRunFrom (false, n) rest := by
            simp [flagRunFrom, flagStep]
          rw [hstep]
          simp only [Bool.toNat_true, Bool.toNat_false] at h ⊢
          omega
        | true =>
          have h := ih false (n + 1)
          have hstep : flagRunFrom (true, n) (FlagEv.poll true :: rest) =
              flagRunFrom (false, n + 1) rest := by
            simp [flagRunFrom, flagStep]
          rw [hstep]
          simp only [Bool.toNat_true, Bool.toNat_false] at h ⊢
          omega

/-! ### C7 -/

/-- C7 counterexample: two gain changes followed by one editor poll
produce a single ParamChange notification — changes coalesce, so it is
not the case that every change produces exactly one notification, even
though every poll succeeded and a successful poll ended the trace. -/
theorem change_coalescing_cex :
    (flagRun [FlagEv.change, FlagEv.change, FlagEv.poll true]).2 = 1 ∧
    [FlagEv.change, FlagEv.change, FlagEv.poll true].count FlagEv.change = 2 ∧
    [FlagEv.change, FlagEv.change, FlagEv.poll true].getLast? =
      some (FlagEv.poll true) := by
  decide

/-- C7 amended: the ChangeFlag handshake never emits a duplicate or
spurious notification (the notification count never exceeds the change
count); a change whose next poll succeeds — with only further changes
in between — is notified by exactly that one poll, all those changes
coalescing into a single notification; and when the next poll's send
fails instead, the exchange has already cleared the flag, so those
changes are lost — a later successful poll delivers nothing for them. -/
theorem flag_handshake_amended (evs a b : List FlagEv) :
    (flagRun evs).2 ≤ evs.count FlagEv.change ∧
    ((∀ e ∈ b, e = FlagEv.change) →
      (flagRun (a ++ FlagEv.change :: (b ++ [FlagEv.poll true]))).2 =
        (flagRun a).2 + 1) ∧
    ((∀ e ∈ b, e = FlagEv.change) →
      (flagRun (a ++ FlagEv.change ::
          (b ++ [FlagEv.poll false, FlagEv.poll true]))).2 =
        (flagRun a).2) := by
  refine ⟨by simpa using flagRunFrom_sent_le evs false 0, ?_, ?_⟩
  · intro hb
    rw [flagRun_eq_from, flagRunFrom_append, ← flagRun_eq_from]
    have h1 : flagRunFrom (flagRun a) (FlagEv.change :: (b ++ [FlagEv.poll true])) =
        flagRunFrom (true, (flagRun a).2) (b ++ [FlagEv.poll true]) := rfl
    rw [h1, flagRunFrom_append, flagRunFrom_true_changes b _ hb]
    simp [flagRunFrom, flagStep]
  · intro hb
    rw [flagRun_eq_from, flagRunFrom_append, ← flagRun_eq_from]
    have h1 : flagRunFrom (flagRun a)
        (FlagEv.change :: (b ++ [FlagEv.poll false, FlagEv.poll true])) =
        flagRunFrom (true, (flagRun a).2)
          (b ++ [FlagEv.poll false, FlagEv.poll true]) := rfl
    rw [h1, flagRunFrom_append, flagRunFrom_true_changes b _ hb]
    simp [flagRunFrom, flagStep]

/-- Concrete runs of the amended handshake property: delivery by the
next successful poll, and loss when the next poll's send fails. -/
theorem flag_handshake_amended_witness :
    (flagRun ([] ++ FlagEv.change :: ([FlagEv.change] ++ [FlagEv.poll true]))).2 =
      (flagRun []).2 + 1 ∧
    (flagRun ([] ++ FlagEv.change ::
        ([] ++ [FlagEv.poll false, FlagEv.poll true]))).2 = (flagRun []).2 :=
  ⟨(flag_handshake_amended [] [] [FlagEv.change]).2.1 (by decide),
   (flag_handshake_amended [] [] []).2.2 (by decide)⟩

/-! ### C9 -/

/-- C9: when the poll's atomic swap returns true but the send fails,
the failure is discarded — no notification is delivered, the flag is
left false, and without a further change no later event ever
re-notifies that change. -/
theorem failed_send_never_renotified (a c : List FlagEv)
    (ha : (flagRun a).1 = true) (hc : ∀ e ∈ c, e ≠ FlagEv.change) :
    (flagRun (a ++ FlagEv.poll false :: c)).2 = (flagRun a).2 ∧
    (flagRun (a ++ FlagEv.poll false :: c)).1 = false := by
  rw [flagRun_eq_from, flagRunFrom_append, ← flagRun_eq_from]
  have hsa : flagRun a = (true, (flagRun a).2) := by
    rw [← ha]
  rw [hsa]
  have h1 : flagRunFrom (true, (flagRun a).2) (FlagEv.poll false :: c) =
      flagRunFrom (false, (flagRun a).2) c := by
    simp [flagRunFrom, flagStep]
  rw [h1, flagRunFrom_false_noChange c _ hc]
  exact ⟨rfl, rfl⟩

/-- Concrete run of the discarded-send property. -/
theorem failed_send_never_renotified_witness :
    (flagRun ([FlagEv.change] ++ FlagEv.poll false :: [FlagEv.poll true])).2 =
      (flagRun [FlagEv.change]).2 ∧
    (flagRun ([FlagEv.change] ++ FlagEv.poll false :: [FlagEv.poll true])).1 =
      false :=
  failed_send_never_renotified [FlagEv.change] [FlagEv.poll true] (by decide)
    (by decide)

/-! ### Cycle-structure helper lemmas -/

/-- Only `Init` emits a notification during the drain, and it is a
`set_size`: the drain's set-size count equals the `Init` count. -/
lemma drainActions_countP (as : List Action) :
    ∀ s : BridgeState,
      (drainActions s as).2.countP isSetSizeN = as.count Action.init := by
  induction as with
  | nil => intro s; simp [drainActions]
  | cons a rest ih =>
    intro s
    cases a <;>
      simp [drainActions, handleAction, isSetSizeN, List.count_cons, ih]

/-- The post-drain flag check emits no `set_size`. -/
lemma flagCheck_countP (s : BridgeState) (sendOk : Bool) :
    (flagCheck s sendOk).2.countP isSetSizeN = 0 := by
  by_cases h : s.params.gainChanged <;>
    cases sendOk <;> simp [flagCheck, h, isSetSizeN]

/-- Every notification emitted during the drain is a `set_size`. -/
lemma drainActions_all_setsize (as : List Action) :
    ∀ s : BridgeState, ∀ n ∈ (drainActions s as).2, isSetSizeN n = true := by
  induction as with
  | nil => intro s n hn; simp [drainActions] at hn
  | cons a rest ih =>
    intro s n hn
    cases a <;> simp only [drainActions, handleAction, List.mem_append] at hn <;>
      [skip; skip; skip; skip; skip; skip] <;>
      first
        | (rcases hn with hn | hn
           · simp only [List.mem_singleton] at hn
             subst hn
             rfl
           · exact ih _ n hn)
        | (rcases hn with hn | hn
           · simp at hn
           · exact ih _ n hn)

/-- With exactly one `Init` in the queue, the drain emits exactly one
notification, a `set_size`. -/
lemma drainActions_single_init (as : List Action) (s : BridgeState)
    (hs : as.count Action.init = 1) :
    ∃ w h, (drainActions s as).2 = [Notif.setSize w h] := by
  have hall := drainActions_all_setsize as s
  have hlen : (drainActions s as).2.length = 1 := by
    rw [← List.countP_eq_length.mpr hall, drainActions_countP, hs]
  cases hd : (drainActions s as).2 with
  | nil => rw [hd] at hlen; simp at hlen
  | cons n t =>
    rw [hd] at hlen hall
    have ht : t = [] := by
      simp only [List.length_cons] at hlen
      exact List.eq_nil_of_length_eq_zero (by omega)
    subst ht
    have hn := hall n (by simp)
    cases n with
    | setSize w h => exact ⟨w, h, rfl⟩
    | paramChange p v => simp [isSetSizeN] at hn

/-! ### C8 -/

/-- C8: in every wake cycle the number of `set_size` notifications
equals the number of `Init` actions drained, and when the cycle holds
exactly one `Init` it emits exactly one `set_size`, which is the first
notification of the cycle — in particular before any `ParamChange`,
which is only checked after the drain. -/
theorem init_emits_single_setsize_first (s : BridgeState) (sendOk : Bool)
    (as : List Action) :
    (cycleActions s sendOk as).2.countP isSetSizeN = as.count Action.init ∧
    (as.count Action.init = 1 →
      (cycleActions s sendOk as).2.countP isSetSizeN = 1 ∧
      (cycleActions s sendOk as).2.head?.map isSetSizeN = some true) := by
  have hcount : (cycleActions s sendOk as).2.countP isSetSizeN =
      as.count Action.init := by
    simp only [cycleActions, List.countP_append, drainActions_countP,
      flagCheck_countP]
    omega
  refine ⟨hcount, fun h1 => ⟨by rw [hcount, h1], ?_⟩⟩
  obtain ⟨w, h, hd⟩ := drainActions_single_init as s h1
  simp only [cycleActions, hd, List.cons_append, List.nil_append,
    List.head?_cons, Option.map_some]
  rfl

/-- Concrete cycle: a gain change then `Init`; the cycle answers with
the `set_size` first and the coalesced `param_change` after it. -/
theorem init_emits_single_setsize_first_witness :
    (cycleActions ⟨200, 200, ⟨1, false, 0, 1/2, 1/2⟩⟩ true
        [Action.setGain (1/2), Action.init]).2.countP isSetSizeN = 1 ∧
    (cycleActions ⟨200, 200, ⟨1, false, 0, 1/2, 1/2⟩⟩ true
        [Action.setGain (1/2), Action.init]).2.head?.map isSetSizeN =
      some true :=
  (init_emits_single_setsize_first ⟨200, 200, ⟨1, false, 0, 1/2, 1/2⟩⟩ true
    [Action.setGain (1/2), Action.init]).2 (by decide)

/-! ### C3 -/

/-- C3: `set_normalized` first clamps its argument to [0,1] (values at
or above 1 convert like 1, values at or below 0 like 0) and converts
through the range formulas; the `gain` parameter's Skewed range has a
positive minimum, and `SetGain` with value 1.0 makes the raw amplitude
`db_to_gain 30` for any skew factor. -/
theorem set_normalized_clamp_and_gain_max (r : FloatRange) (v : ℝ) :
    set_normalized r v = unnormalize r (max 0 (min 1 v)) ∧
    (1 ≤ v → set_normalized r v = unnormalize r 1) ∧
    (v ≤ 0 → set_normalized r v = unnormalize r 0) ∧
    (0 : ℝ) < db_to_gain (-30) ∧
    (∀ factor : ℝ, set_normalized (gainRange factor) 1 = db_to_gain 30) := by
  have hpos : (0 : ℝ) < db_to_gain (-30) :=
    Real.rpow_pos_of_pos (by norm_num) _
  refine ⟨rfl, ?_, ?_, hpos, ?_⟩
  · intro h
    have h1 : min 1 v = 1 := min_eq_left h
    rw [set_normalized, h1]
    norm_num
  · intro h
    have h1 : min 1 v = v := min_eq_right (h.trans zero_le_one)
    have h2 : max 0 v = 0 := max_eq_left h
    rw [set_normalized, h1, h2]
  · intro factor
    have h1 : max 0 (min 1 (1 : ℝ)) = 1 := by norm_num
    rw [set_normalized, h1, gainRange, unnormalize, Real.one_rpow,
      Real.rpow_one, mul_comm, div_mul_cancel₀ _ (ne_of_gt hpos)]

/-- Concrete conversions through the gain range. -/
theorem set_normalized_clamp_and_gain_max_witness :
    set_normalized (gainRange 2) 2 = unnormalize (gainRange 2) 1 ∧
    set_normalized (gainRange 2) 1 = db_to_gain 30 :=
  ⟨(set_normalized_clamp_and_gain_max (gainRange 2) 2).2.1 one_le_two,
   (set_normalized_clamp_and_gain_max (gainRange 2) 1).2.2.2.2 2⟩

/-! ### Numeric helper lemmas for the -25 dB scenario -/

lemma envBeat_concrete : envBeat 120 1 2 = 0 := by
  have h1 : (120 : ℝ) / 60 * 1 = 2 := by norm_num
  have h2 : rtrunc ((2 : ℝ) / ((2 : ℤ) : ℝ)) = 1 := by
    rw [rtrunc]
    norm_num
  rw [envBeat, fmod, h1, h2]
  norm_num

lemma envDb_concrete : envDb 0 10 0.5 = -25 := by
  rw [envDb, show ((0 : ℝ) + 1) = 1 by norm_num, Real.one_rpow]
  norm_num

lemma ten_rpow_quarter_pow4 : ((10 : ℝ) ^ ((1 : ℝ) / 4)) ^ (4 : ℕ) = 10 := by
  rw [← Real.rpow_natCast ((10 : ℝ) ^ ((1 : ℝ) / 4)) 4,
    ← Real.rpow_mul (by norm_num : (0 : ℝ) ≤ 10)]
  norm_num

lemma ten_rpow_quarter_pos : (0 : ℝ) < (10 : ℝ) ^ ((1 : ℝ) / 4) :=
  Real.rpow_pos_of_pos (by norm_num) _

lemma ten_rpow_quarter_gt : (1.778 : ℝ) < (10 : ℝ) ^ ((1 : ℝ) / 4) := by
  have h4 : ((1.778 : ℝ)) ^ (4 : ℕ) < ((10 : ℝ) ^ ((1 : ℝ) / 4)) ^ (4 : ℕ) := by
    rw [ten_rpow_quarter_pow4]
    norm_num
  exact lt_of_pow_lt_pow_left₀ 4 ten_rpow_quarter_pos.le h4

lemma ten_rpow_quarter_lt : (10 : ℝ) ^ ((1 : ℝ) / 4) < 1.7784 := by
  have h4 : ((10 : ℝ) ^ ((1 : ℝ) / 4)) ^ (4 : ℕ) < (1.7784 : ℝ) ^ (4 : ℕ) := by
    rw [ten_rpow_quarter_pow4]
    norm_num
  exact lt_of_pow_lt_pow_left₀ 4 (by norm_num) h4

lemma db_to_gain_neg25_eq :
    db_to_gain (-25) = ((10 : ℝ) * ((10 : ℝ) ^ ((1 : ℝ) / 4)))⁻¹ := by
  rw [db_to_gain, show ((-25 : ℝ) * 0.05) = -(1 + 1 / 4) by norm_num,
    Real.rpow_neg (by norm_num : (0 : ℝ) ≤ 10),
    Real.rpow_add (by norm_num : (0 : ℝ) < 10), Real.rpow_one]

lemma db_to_gain_neg25_bounds :
    0.0562 < db_to_gain (-25) ∧ db_to_gain (-25) < 0.0563 := by
  have hgt := ten_rpow_quarter_gt
  have hlt := ten_rpow_quarter_lt
  have hpos : (0 : ℝ) < 10 * ((10 : ℝ) ^ ((1 : ℝ) / 4)) := by
    have := ten_rpow_quarter_pos
    linarith
  rw [db_to_gain_neg25_eq]
  constructor
  · have h1 : 10 * ((10 : ℝ) ^ ((1 : ℝ) / 4)) < 17.784 := by linarith
    have h2 : (17.784 : ℝ)⁻¹ < (10 * ((10 : ℝ) ^ ((1 : ℝ) / 4)))⁻¹ :=
      inv_strictAnti₀ hpos h1
    have h3 : (0.0562 : ℝ) < (17.784 : ℝ)⁻¹ := by norm_num
    linarith
  · have h1 : (17.78 : ℝ) < 10 * ((10 : ℝ) ^ ((1 : ℝ) / 4)) := by linarith
    have h2 : (10 * ((10 : ℝ) ^ ((1 : ℝ) / 4)))⁻¹ < (17.78 : ℝ)⁻¹ :=
      inv_strictAnti₀ (by norm_num) h1
    have h3 : (17.78 : ℝ)⁻¹ < 0.0563 := by norm_num
    linarith

lemma db_to_gain_neg25_lt_one : db_to_gain (-25) < 1 := by
  rw [db_to_gain]
  exact Real.rpow_lt_one_of_one_lt_of_neg (by norm_num) (by norm_num)

/-! ### C1 -/

/-- C1: while `length > 0`, with transport tempo and position in hand,
every sample is multiplied by `db_to_gain` of
`-((beat + 1)^(-pow)) * 50 * amount` with
`beat = tempo/60 * position mod length`, and by the smoothed gain; at
tempo 120, position 1 s, length 2, pow 10, amount 0.5 the beat is 0,
the attenuation is exactly -25 dB, and the multiplier lies strictly
between 0.0562 and 0.0563. -/
theorem envelope_formula_and_neg25dB :
    (∀ (tempo second : ℝ) (length : ℤ) (pw amount gain : ℝ) (frame : List ℝ),
        0 < length →
        processFrame tempo (some second) length pw amount gain frame =
          Except.ok (frame.map fun s =>
            s * db_to_gain (-((envBeat tempo second length + 1) ^ (-pw)) * 50 * amount)
              * gain)) ∧
    envBeat 120 1 2 = 0 ∧
    envDb (envBeat 120 1 2) 10 0.5 = -25 ∧
    0.0562 < db_to_gain (-25) ∧ db_to_gain (-25) < 0.0563 := by
  refine ⟨?_, envBeat_concrete, ?_, db_to_gain_neg25_bounds⟩
  · intro tempo second length pw amount gain frame hl
    rw [processFrame_withPos tempo second length hl pw amount gain frame]
    rfl
  · rw [envBeat_concrete, envDb_concrete]

/-- Concrete run of the envelope formula on one sample. -/
theorem envelope_formula_and_neg25dB_witness :
    processFrame 120 (some 1) 2 10 0.5 1 [1] =
      Except.ok ([(1 : ℝ)].map fun s =>
        s * db_to_gain (-((envBeat 120 1 2 + 1) ^ (-(10 : ℝ))) * 50 * 0.5) * 1) :=
  envelope_formula_and_neg25dB.1 120 1 2 10 0.5 1 [1] (by decide)

/-! ### C4 -/

/-- C4 counterexample: pulling `length`/`amount`/`pow` once per block is
observably different from what the code does.  With a length stream
reading 2 at the first frame and 0 at the second, the code's second
frame is processed envelope-free, while the once-per-block semantics
applies the envelope to both frames. -/
theorem smoothers_pulled_per_sample_cex :
    process ⟨some 120, some 1⟩ (fun _ => 1) (fun i => if i = 0 then 2 else 0)
        (fun _ => 0.5) (fun _ => 10) [[1], [1]] ≠
      processOncePerBlock ⟨some 120, some 1⟩ (fun _ => 1)
        (fun i => if i = 0 then 2 else 0) (fun _ => 0.5) (fun _ => 10)
        [[1], [1]] := by
  intro h
  simp only [process, processOncePerBlock, processFrom, processFrame,
    sampleStep] at h
  norm_num at h
  have he : envDb 0 10 (1 / 2) = -25 := by
    rw [show (1 / 2 : ℝ) = 0.5 by norm_num]
    exact envDb_concrete
  rw [envBeat_concrete, he] at h
  have hlt := db_to_gain_neg25_lt_one
  linarith [h.symm.le]

/-- C4 amended, per-frame pull lemma generalized over the start index. -/
lemma processFrom_ok_get (tempo : ℝ) (pos : Option ℝ) (gS : ℕ → ℝ)
    (lS : ℕ → ℤ) (aS pS : ℕ → ℝ) :
    ∀ (buffer : List (List ℝ)) (n : ℕ) (out : List (List ℝ)),
      processFrom tempo pos gS lS aS pS n buffer = Except.ok out →
      out.length = buffer.length ∧
      ∀ i (hb : i < buffer.length) (ho : i < out.length),
        processFrame tempo pos (lS (n + i)) (pS (n + i)) (aS (n + i))
            (gS (n + i)) (buffer.get ⟨i, hb⟩) =
          Except.ok (out.get ⟨i, ho⟩) := by
  intro buffer
  induction buffer with
  | nil =>
    intro n out hout
    simp only [processFrom] at hout
    cases hout
    exact ⟨rfl, fun i hb => absurd hb (by simp)⟩
  | cons frame rest ih =>
    intro n out hout
    simp only [processFrom] at hout
    cases hframe : processFrame tempo pos (lS n) (pS n) (aS n) (gS n) frame with
    | error e => rw [hframe] at hout; cases hout
    | ok ys =>
      rw [hframe] at hout
      cases hrest : processFrom tempo pos gS lS aS pS (n + 1) rest with
      | error e => rw [hrest] at hout; cases hout
      | ok r2 =>
        rw [hrest] at hout
        cases hout
        obtain ⟨hlen, hrec⟩ := ih (n + 1) r2 hrest
        refine ⟨by simpa using hlen, ?_⟩
        intro i hb ho
        cases i with
        | zero =>
          simpa using hframe
        | succ j =>
          have hb2 : j < rest.length := by simpa using hb
          have ho2 : j < r2.length := by simpa using ho
          have := hrec j hb2 ho2
          rw [show n + (j + 1) = n + 1 + j by omega]
          simpa using this

/-- C4 amended: all four parameters — `gain`, `length`, `amount`, and
`pow` — are pulled from their smoothers exactly once per sample frame
(the outer loop is per sample), not once per block: the `i`-th frame of
every successfully processed block is computed from the `i`-th pull of
each smoother, shared by the channels of that frame. -/
theorem smoothers_pulled_once_per_frame (tempo : ℝ) (pos : Option ℝ)
    (gS : ℕ → ℝ) (lS : ℕ → ℤ) (aS pS : ℕ → ℝ)
    (buffer out : List (List ℝ))
    (hout : process ⟨some tempo, pos⟩ gS lS aS pS buffer = Except.ok out) :
    out.length = buffer.length ∧
    ∀ i (hb : i < buffer.length) (ho : i < out.length),
      processFrame tempo pos (lS i) (pS i) (aS i) (gS i)
          (buffer.get ⟨i, hb⟩) = Except.ok (out.get ⟨i, ho⟩) := by
  have h0 : processFrom tempo pos gS lS aS pS 0 buffer = Except.ok out := hout
  obtain ⟨hlen, hrec⟩ := processFrom_ok_get tempo pos gS lS aS pS buffer 0 out h0
  refine ⟨hlen, fun i hb ho => ?_⟩
  simpa using hrec i hb ho

/-- Concrete run of the per-frame pull property. -/
theorem smoothers_pulled_once_per_frame_witness :
    ([[(1 : ℝ) * 1]] : List (List ℝ)).length = ([[(1 : ℝ)]] : List (List ℝ)).length :=
  (smoothers_pulled_once_per_frame 120 (some 1) (fun _ => 1) (fun _ => 0)
    (fun _ => 0.5) (fun _ => 10) [[1]] [[1 * 1]]
    (by simp [process, processFrom, processFrame, sampleStep])).1

/-! ### C5 -/

/-- C5 counterexample: with tempo available, position unavailable, and
the decay feature unused (`length == 0` everywhere), the block is
processed successfully — the code does not hard-fail on the missing
position, because `pos_seconds()` is only fetched inside the
`length > 0` branch. -/
theorem missing_position_ok_when_length_zero :
    process ⟨some 120, none⟩ (fun _ => 1) (fun _ => 0) (fun _ => 0.5)
        (fun _ => 10) [[1]] = Except.ok [[1]] := by
  simp [process, processFrom, processFrame, sampleStep]

/-- Helper: a missing position fails the block as soon as some frame
has positive `length` and at least one sample. -/
lemma processFrom_noPos_err (tempo : ℝ) (gS : ℕ → ℝ) (lS : ℕ → ℤ)
    (aS pS : ℕ → ℝ) :
    ∀ (buffer : List (List ℝ)) (n : ℕ),
      (∃ i, ∃ hb : i < buffer.length, 0 < lS (n + i) ∧ buffer.get ⟨i, hb⟩ ≠ []) →
      processFrom tempo none gS lS aS pS n buffer =
        Except.error "err: cannot get seconds" := by
  intro buffer
  induction buffer with
  | nil =>
    intro n h
    obtain ⟨i, hb, _⟩ := h
    exact absurd hb (by simp)
  | cons frame rest ih =>
    intro n h
    obtain ⟨i, hb, hpos, hne⟩ := h
    cases i with
    | zero =>
      have hframe := processFrame_noPos_err tempo (lS (n + 0)) (by simpa using hpos)
        (pS n) (aS n) (gS n) frame (by simpa using hne)
      simp only [processFrom]
      rw [show lS n = lS (n + 0) by simp, hframe]
    | succ j =>
      have hrest : processFrom tempo none gS lS aS pS (n + 1) rest =
          Except.error "err: cannot get seconds" := by
        refine ih (n + 1) ⟨j, by simpa using hb, ?_, ?_⟩
        · rw [show n + 1 + j = n + (j + 1) by omega]
          exact hpos
        · simpa using hne
      simp only [processFrom]
      cases hframe : processFrame tempo none (lS n) (pS n) (aS n) (gS n) frame with
      | error e =>
        have : e = "err: cannot get seconds" := by
          by_cases hl : 0 < lS n
          · cases frame with
            | nil => simp [processFrame] at hframe
            | cons s t =>
              rw [processFrame_noPos_err tempo (lS n) hl (pS n) (aS n) (gS n)
                (s :: t) (by simp)] at hframe
              cases hframe
              rfl
          · rw [processFrame_nonpos tempo none (lS n) hl (pS n) (aS n) (gS n)
              frame] at hframe
            cases hframe
        rw [this]
      | ok ys => rw [hrest]

/-- C5 amended: a missing tempo is fatal for every block, even when the
decay feature is unused (`length == 0`) and even for an empty buffer;
a missing position, by contrast, is fatal exactly when some frame is
processed with `length > 0` and at least one sample — when `length`
stays 0 the block succeeds despite the missing position. -/
theorem transport_failure_amended :
    (∀ (pos : Option ℝ) (gS : ℕ → ℝ) (lS : ℕ → ℤ) (aS pS : ℕ → ℝ)
        (buffer : List (List ℝ)),
      process ⟨none, pos⟩ gS lS aS pS buffer =
        Except.error "err: cannot get tempo") ∧
    (∀ (tempo : ℝ) (gS : ℕ → ℝ) (lS : ℕ → ℤ) (aS pS : ℕ → ℝ)
        (buffer : List (List ℝ)),
      (∃ i, ∃ hb : i < buffer.length, 0 < lS i ∧ buffer.get ⟨i, hb⟩ ≠ []) →
      process ⟨some tempo, none⟩ gS lS aS pS buffer =
        Except.error "err: cannot get seconds") := by
  constructor
  · intro pos gS lS aS pS buffer
    rfl
  · intro tempo gS lS aS pS buffer h
    obtain ⟨i, hb, hpos, hne⟩ := h
    exact processFrom_noPos_err tempo gS lS aS pS buffer 0
      ⟨i, hb, by simpa using hpos, hne⟩

/-- Concrete runs of both fatal transport cases. -/
theorem transport_failure_amended_witness :
    process ⟨none, some 1⟩ (fun _ => 1) (fun _ => 0) (fun _ => 0.5)
        (fun _ => 10) [[1]] = Except.error "err: cannot get tempo" ∧
    process ⟨some 120, none⟩ (fun _ => 1) (fun _ => 2) (fun _ => 0.5)
        (fun _ => 10) [[1]] = Except.error "err: cannot get seconds" :=
  ⟨transport_failure_amended.1 (some 1) (fun _ => 1) (fun _ => 0)
      (fun _ => 0.5) (fun _ => 10) [[1]],
   transport_failure_amended.2 120 (fun _ => 1) (fun _ => 2) (fun _ => 0.5)
      (fun _ => 10) [[1]] ⟨0, by decide, by decide, by simp⟩⟩

end SoutGain
